import Mathlib

/-!
Verification of the block-interaction and breaking subsystem of
`fmc_vanilla` (file `src/players/hand.rs`) against its natural-language
specification.

The development shallowly embeds the three systems of `hand.rs` —
`break_blocks`, `handle_left_clicks`, and `handle_right_clicks` — as pure
Lean functions.  Timing values (`std::time::Instant`, `f32` seconds) are
embedded as exact rationals; the branch structure of the source only
compares and adds these quantities, so rational arithmetic represents it
faithfully.  The Bevy ECS world is passed explicitly: queries become
`Option`-valued lookups, `unwrap` on a failed query becomes an
`Except.error` (a panic escaping the system), `Commands`/`EventWriter`
effects become lists of issued commands, and `Local<HashMap<..>>` state
becomes an association list threaded through the fold over the tick's
events.  Geometric primitives that live in the external `fmc` crate
(`raycast_to_block`, `Aabb::ray_intersection`, `Hitbox::ray_intersection`,
`BlockFace::shift_position`, `BlockFace::to_rotation`) are modelled as
abstract inputs or simple modelled functions; every branch decision made
by `hand.rs` itself is embedded from the source.
-/

/-- Integer 3D block coordinate (`IVec3` in the source). -/
structure IVec3 where
  x : Int
  y : Int
  z : Int
deriving DecidableEq, Repr

/-- `BlockId` in the source (a plain numeric id). -/
abbrev BlockId := Nat

/-- Item id (a plain numeric id). -/
abbrev ItemId := Nat

/-- ECS entity id, embedded as a natural number. -/
abbrev Entity := Nat

/-- The six faces of a block (fmc crate `BlockFace`). -/
inductive BlockFace where
  | Top
  | Bottom
  | North
  | South
  | East
  | West
deriving DecidableEq, Repr

/-- Quarter-turn rotations about the vertical axis (fmc crate `BlockRotation`). -/
inductive BlockRotation where
  | zero
  | once
  | twice
  | thrice
deriving DecidableEq, Repr

/-- Modelled from the spec: the external collaborator
`BlockFace::shift_position` moves a block position one step in the
direction of the face. -/
def BlockFace.shiftPosition : BlockFace → IVec3 → IVec3
  | .Top, p => ⟨p.x, p.y + 1, p.z⟩
  | .Bottom, p => ⟨p.x, p.y - 1, p.z⟩
  | .North, p => ⟨p.x, p.y, p.z + 1⟩
  | .South, p => ⟨p.x, p.y, p.z - 1⟩
  | .East, p => ⟨p.x + 1, p.y, p.z⟩
  | .West, p => ⟨p.x - 1, p.y, p.z⟩

/-- Modelled from the spec: the external collaborator
`BlockFace::to_rotation` maps a lateral face to a quarter-turn rotation. -/
def BlockFace.toRotation : BlockFace → BlockRotation
  | .North => .zero
  | .East => .once
  | .South => .twice
  | .West => .thrice
  | .Top => .zero
  | .Bottom => .zero

/-- Tool configuration of an item (`equipped_item_config.tool`): a name used
as the drop-table key and a breaking-rate multiplier. -/
structure Tool where
  name : String
  efficiency : ℚ

/-- Placement section of a block configuration
(`block_config.placement.{rotatable, side_transform, ceiling, floor, sides}`).
`side_transform` records whether the optional side transform is present. -/
structure PlacementConfig where
  rotatable : Bool
  side_transform : Bool
  ceiling : Bool
  floor : Bool
  sides : Bool

/-- Block configuration as consumed by `hand.rs`: an optional hardness in
seconds (absent means unbreakable), whether a raycast hitbox is configured,
whether the block is replaceable by placement, the placement section, and
the drop table keyed by the equipped tool's name
(`block_config.drop(tool_name) -> Option<(item_id, count)>`). -/
structure BlockConfig where
  hardness : Option ℚ
  hitbox : Bool
  replaceable : Bool
  placement : PlacementConfig
  drop : Option String → Option (ItemId × Nat)

/-- An inventory stack (fmc crate `ItemStack`): an optional held item id and
a stack size.  Modelled from the spec: a stack is empty when it holds no
item. -/
structure ItemStack where
  item : Option ItemId
  size : Nat
deriving DecidableEq, Repr

/-- Item configuration as consumed by `hand.rs`: optional tool section,
optional placeable block id (`item_config.block`), and the model id used
for ground items. -/
structure ItemConfig where
  tool : Option Tool
  block : Option BlockId
  model_id : Nat

/-- The per-player state read by `break_blocks`
(`Query<(&Inventory, &EquippedItem), With<Player>>`). -/
structure PlayerState where
  inventory : List ItemStack
  equipped : Nat

/-- The static game configuration: block configs (`Blocks::get`), item
configs (`Res<Items>`), the id of the `air` block, and the player query
(`None` models a player entity that lacks the required components, on which
the source's `unwrap` panics). -/
structure GameCfg where
  blockCfg : BlockId → BlockConfig
  itemCfg : ItemId → ItemConfig
  airId : BlockId
  players : Entity → Option PlayerState

/-- `BlockBreakingEvent` from the source. -/
structure BreakingEvent where
  player_entity : Entity
  block_position : IVec3
  block_id : BlockId
deriving DecidableEq, Repr

/-- `BreakingBlock` from the source: the visual-proxy entity, accumulated
progress in `[0, 1]`, and the instant of the previous hit. -/
structure BreakingBlock where
  model_entity : Entity
  progress : ℚ
  prev_hit : ℚ
deriving DecidableEq, Repr

/-- The mutable fields of a breaking visual proxy touched by the stage
chain: `material_parallax_texture` and `ModelVisibility::is_visible`. -/
structure ModelState where
  texture : Option String
  visible : Bool
deriving DecidableEq, Repr

/-- Association-list lookup, embedding `HashMap::get` (keys are unique by
construction). -/
def lookupA {α β : Type} [DecidableEq α] : List (α × β) → α → Option β
  | [], _ => none
  | (k2, v) :: rest, k => if k2 = k then some v else lookupA rest k

/-- Association-list insert-or-overwrite, embedding `HashMap::insert` and
in-place mutation through `get_mut`. -/
def insertA {α β : Type} [DecidableEq α] : List (α × β) → α → β → List (α × β)
  | [], k, v => [(k, v)]
  | (k2, v2) :: rest, k, v =>
    if k2 = k then (k2, v) :: rest else (k2, v2) :: insertA rest k v

/-- The state threaded through one `break_blocks` run: the
`Local<HashMap<IVec3, BreakingBlock>>` store, the breaking-proxy models
visible to `model_query`, and the commands issued so far (block mutations,
ground-item spawns, despawns).  `next_entity` models `Commands::spawn`
id allocation. -/
structure EngineState where
  being_broken : List (IVec3 × BreakingBlock)
  models : List (Entity × ModelState)
  block_updates : List (IVec3 × BlockId)
  ground_items : List (ItemId × Nat × IVec3)
  despawned : List Entity
  next_entity : Entity
deriving DecidableEq, Repr

/-- Tool of the equipped item (source lines 93-102): index the inventory at
the equipped slot (a Rust index panic when out of bounds), then read the
item's tool config if an item is held. -/
def toolOf (cfg : GameCfg) (ps : PlayerState) : Except String (Option Tool) :=
  match ps.inventory.get? ps.equipped with
  | none => .error "index out of bounds"
  | some stack =>
    match stack.item with
    | some iid => .ok (cfg.itemCfg iid).tool
    | none => .ok none

/-- `tool.map(|t| t.efficiency).unwrap_or(1.0)` from the source. -/
def efficiencyOf (tool : Option Tool) : ℚ :=
  (tool.map Tool.efficiency).getD 1

/-- The visual stage chosen by the else-if chain of source lines 165-183,
scanned from high to low: `some k` (2 ≤ k ≤ 9) sets texture
`blocks/breaking_k.png`, `some 1` makes the proxy visible, `none` changes
nothing.  Each guard is `prev_progress < k/10 && progress > k/10`, exactly
as in the source. -/
def appliedStage (prev progress : ℚ) : Option Nat :=
  if prev < 9/10 ∧ progress > 9/10 then some 9
  else if prev < 8/10 ∧ progress > 8/10 then some 8
  else if prev < 7/10 ∧ progress > 7/10 then some 7
  else if prev < 6/10 ∧ progress > 6/10 then some 6
  else if prev < 5/10 ∧ progress > 5/10 then some 5
  else if prev < 4/10 ∧ progress > 4/10 then some 4
  else if prev < 3/10 ∧ progress > 3/10 then some 3
  else if prev < 2/10 ∧ progress > 2/10 then some 2
  else if prev < 1/10 ∧ progress > 1/10 then some 1
  else none

/-- Apply the chosen stage write to the proxy model state: stages 9 down to
2 swap the parallax texture, stage 1 makes the proxy visible, and otherwise
nothing changes. -/
def stageApply (prev progress : ℚ) (m : ModelState) : ModelState :=
  match appliedStage prev progress with
  | some 9 => { m with texture := some "blocks/breaking_9.png" }
  | some 8 => { m with texture := some "blocks/breaking_8.png" }
  | some 7 => { m with texture := some "blocks/breaking_7.png" }
  | some 6 => { m with texture := some "blocks/breaking_6.png" }
  | some 5 => { m with texture := some "blocks/breaking_5.png" }
  | some 4 => { m with texture := some "blocks/breaking_4.png" }
  | some 3 => { m with texture := some "blocks/breaking_3.png" }
  | some 2 => { m with texture := some "blocks/breaking_2.png" }
  | some 1 => { m with visible := true }
  | _ => m

/-- The `ACTIVE` branch of `break_blocks` (source lines 111-183 plus the
completion block 142-164): a gap above 50 ms only bumps the timestamp;
otherwise progress grows by `elapsed / hardness * efficiency`, the entry's
timestamp is updated, and either the completion effects (air mutation plus
drop spawn) or one stage write is applied.  The `model_query ... .unwrap()`
of line 120 is an error when the proxy model is missing. -/
def activeBranch (cfg : GameCfg) (now : ℚ) (st : EngineState) (ev : BreakingEvent)
    (bb : BreakingBlock) (hardness : ℚ) (tool : Option Tool) :
    Except String EngineState :=
  if now - bb.prev_hit > 1/20 then
    .ok { st with being_broken :=
            (insertA st.being_broken ev.block_position { bb with prev_hit := now }) }
  else
    match lookupA st.models bb.model_entity with
    | none => .error "missing breaking model"
    | some m =>
      if bb.progress + (now - bb.prev_hit) / hardness * efficiencyOf tool ≥ 1 then
        match (cfg.blockCfg ev.block_id).drop (Option.map Tool.name tool) with
        | none =>
          .ok { st with
            being_broken := (insertA st.being_broken ev.block_position
              ⟨bb.model_entity,
               bb.progress + (now - bb.prev_hit) / hardness * efficiencyOf tool, now⟩),
            block_updates := st.block_updates ++ [(ev.block_position, cfg.airId)] }
        | some (iid, cnt) =>
          .ok { st with
            being_broken := (insertA st.being_broken ev.block_position
              ⟨bb.model_entity,
               bb.progress + (now - bb.prev_hit) / hardness * efficiencyOf tool, now⟩),
            block_updates := st.block_updates ++ [(ev.block_position, cfg.airId)],
            ground_items := st.ground_items ++ [(iid, cnt, ev.block_position)] }
      else
        .ok { st with
          being_broken := (insertA st.being_broken ev.block_position
            ⟨bb.model_entity,
             bb.progress + (now - bb.prev_hit) / hardness * efficiencyOf tool, now⟩),
          models := (insertA st.models bb.model_entity
            (stageApply bb.progress
              (bb.progress + (now - bb.prev_hit) / hardness * efficiencyOf tool) m)) }

/-- The `ABSENT` branch of `break_blocks` (source lines 184-240).  Hardness
zero: issue the air mutation, then — only when a drop resolves — spawn the
ground item and insert the progress-1.0 guard entry (the source's
`continue` on a missing drop skips the guard insertion).  Positive
hardness: spawn a hidden proxy model and insert a fresh entry with
progress 0. -/
def absentBranch (cfg : GameCfg) (now : ℚ) (st : EngineState) (ev : BreakingEvent)
    (hardness : ℚ) (tool : Option Tool) : Except String EngineState :=
  if hardness = 0 then
    match (cfg.blockCfg ev.block_id).drop (Option.map Tool.name tool) with
    | none =>
      .ok { st with block_updates := st.block_updates ++ [(ev.block_position, cfg.airId)] }
    | some (iid, cnt) =>
      .ok { st with
        block_updates := st.block_updates ++ [(ev.block_position, cfg.airId)],
        ground_items := st.ground_items ++ [(iid, cnt, ev.block_position)],
        being_broken := (insertA st.being_broken ev.block_position
          ⟨st.next_entity, 1, now⟩),
        next_entity := st.next_entity + 1 }
  else
    .ok { st with
      models := (insertA st.models st.next_entity ⟨some "blocks/breaking_1.png", false⟩),
      being_broken := (insertA st.being_broken ev.block_position ⟨st.next_entity, 0, now⟩),
      next_entity := st.next_entity + 1 }

/-- Body of the per-event loop of `break_blocks` after the duplicate guard
(source lines 93-240): resolve the player (panic when missing), the tool,
then dispatch on hardness and on whether the position is already tracked. -/
def processEventCore (cfg : GameCfg) (now : ℚ) (st : EngineState) (ev : BreakingEvent) :
    Except String EngineState :=
  match cfg.players ev.player_entity with
  | none => .error "missing player state"
  | some ps =>
    match toolOf cfg ps with
    | .error e => .error e
    | .ok tool =>
      match (cfg.blockCfg ev.block_id).hardness with
      | none => .ok st
      | some hardness =>
        match lookupA st.being_broken ev.block_position with
        | some bb => activeBranch cfg now st ev bb hardness tool
        | none => absentBranch cfg now st ev hardness tool

/-- One iteration of the event loop of `break_blocks` (source lines
85-241), including the duplicate guard of lines 86-91: an event for a
tracked position whose previous hit carries this very instant is skipped. -/
def processEvent (cfg : GameCfg) (now : ℚ) (st : EngineState) (ev : BreakingEvent) :
    Except String EngineState :=
  match lookupA st.being_broken ev.block_position with
  | some bb => if now = bb.prev_hit then .ok st else processEventCore cfg now st ev
  | none => processEventCore cfg now st ev

/-- The removal predicate of the cleanup pass (source lines 244-247). -/
def shouldRemove (now : ℚ) (bb : BreakingBlock) : Bool :=
  decide (now - bb.prev_hit > 1/2) || decide (bb.progress ≥ 1)

/-- The per-tick cleanup pass (source lines 243-254): drop every entry not
hit for over half a second or already at full progress, despawning its
proxy entity; no block mutation is issued here. -/
def cleanup (now : ℚ) (st : EngineState) : EngineState :=
  { st with
    being_broken := st.being_broken.filter (fun e => !shouldRemove now e.2),
    despawned := st.despawned ++
      (st.being_broken.filter (fun e => shouldRemove now e.2)).map
        (fun e => e.2.model_entity) }

/-- Fold of `processEvent` over the tick's events, stopping at the first
panic, exactly as a Bevy system aborts at an `unwrap` failure. -/
def runEvents (cfg : GameCfg) (now : ℚ) : List BreakingEvent → EngineState →
    Except String EngineState
  | [], st => .ok st
  | ev :: rest, st =>
    match processEvent cfg now st ev with
    | .error e => .error e
    | .ok st1 => runEvents cfg now rest st1

/-- The whole `break_blocks` system for one tick: process every event, then
run the cleanup pass (the cleanup is reached only when no event panicked). -/
def break_blocks (cfg : GameCfg) (now : ℚ) (events : List BreakingEvent)
    (st : EngineState) : Except String EngineState :=
  (runEvents cfg now events st).map (cleanup now)

/-- The empty engine state at server start. -/
def initState : EngineState := ⟨[], [], [], [], [], 0⟩

/-- A candidate model entity enumerated by the left-click 27-chunk scan
(source lines 385-420).  `queryOk` is whether `model_query.get` succeeds,
`blockTag` the optional attached `BlockPosition` component, and
`intersection` the outcome of the external geometric primitive
`hitbox.ray_intersection(camera, forward, transform)` for the configured
hitbox of the tagged block. -/
structure LeftModelCandidate where
  entity : Entity
  queryOk : Bool
  blockTag : Option IVec3
  intersection : Option ℚ
deriving DecidableEq, Repr

/-- The left-click model scan (source lines 388-420): keep only candidates
that carry a block-position tag whose block has a configured hitbox and is
actually intersected, tracking the strictly nearest.  The
`world_map.get_block(..).unwrap()` of line 398 is an error when the tagged
position is unloaded. -/
def scanModels (world : IVec3 → Option BlockId) (bcfg : BlockId → BlockConfig) :
    List LeftModelCandidate → Option (IVec3 × BlockId × ℚ) →
    Except String (Option (IVec3 × BlockId × ℚ))
  | [], acc => .ok acc
  | c :: rest, acc =>
    if c.queryOk = false then scanModels world bcfg rest acc
    else
      match c.blockTag with
      | none => scanModels world bcfg rest acc
      | some pos =>
        match world pos with
        | none => .error "unloaded block position"
        | some bid =>
          if (bcfg bid).hitbox = false then scanModels world bcfg rest acc
          else
            match c.intersection with
            | none => scanModels world bcfg rest acc
            | some d =>
              match acc with
              | some (_, _, closest) =>
                if d < closest then scanModels world bcfg rest (some (pos, bid, d))
                else scanModels world bcfg rest acc
              | none => scanModels world bcfg rest (some (pos, bid, d))

/-- The target merge of `handle_left_clicks` (source lines 427-443): with
both a model hit and a block hit, the model wins only when strictly
closer; otherwise whichever exists. -/
def resolveLeftTarget (model_hit : Option (IVec3 × BlockId × ℚ))
    (block_hit : Option (IVec3 × BlockId × BlockFace × ℚ)) :
    Option (IVec3 × BlockId) :=
  match block_hit, model_hit with
  | some (bp, bid, _, bd), some (mp, mbid, md) =>
    if md < bd then some (mp, mbid) else some (bp, bid)
  | none, some (mp, mbid, _) => some (mp, mbid)
  | some (bp, bid, _, _), none => some (bp, bid)
  | none, none => none

/-- A raycast outcome of `world_map.raycast_to_block` (external primitive):
position, block id, hit face, and distance. -/
structure BlockHit where
  position : IVec3
  block_id : BlockId
  face : BlockFace
  distance : ℚ
deriving DecidableEq, Repr

/-- A candidate model entity enumerated by the right-click 27-chunk scan
(source lines 491-532).  `queryOk` is whether the entity has both `Aabb`
and transform, and `intersection` the outcome of the external
`aabb.ray_intersection(camera, forward)`. -/
structure RightModelCandidate where
  entity : Entity
  queryOk : Bool
  intersection : Option ℚ
deriving DecidableEq, Repr

/-- `f64::MAX` used as the sentinel block-hit distance (source line 483):
`(2^53 - 1) * 2^971`. -/
def f64Max : ℚ := (2 ^ 53 - 1) * 2 ^ 971

/-- `block_hit_distance` of source lines 480-484. -/
def blockHitDistance (bh : Option BlockHit) : ℚ :=
  match bh with
  | some h => h.distance
  | none => f64Max

/-- The right-click model scan (source lines 501-529): candidates are
dropped when the block hit is strictly closer, and the strictly nearest
survivor is kept. -/
def scanRight (bhd : ℚ) : List RightModelCandidate → Option (Entity × ℚ) →
    Option (Entity × ℚ)
  | [], acc => acc
  | c :: rest, acc =>
    if c.queryOk = false then scanRight bhd rest acc
    else
      match c.intersection with
      | none => scanRight bhd rest acc
      | some d =>
        if bhd < d then scanRight bhd rest acc
        else
          match acc with
          | some (_, closest) =>
            if d < closest then scanRight bhd rest (some (c.entity, d))
            else scanRight bhd rest acc
          | none => scanRight bhd rest (some (c.entity, d))

/-- Player state read by `handle_right_clicks`: inventory, equipped slot,
and `player_position.translation().as_ivec3()`. -/
structure RightPlayer where
  inventory : List ItemStack
  equipped : Nat
  position : IVec3

/-- The world as seen by one right click: block/item configuration, the
usable-item registry, the clicking player (as its query outcome), the model
candidates of the 27-chunk scan, which entities expose a
`HandInteractions` sink, the block-entity registry of the chunk, and the
outcome of the block raycast. -/
structure RightCtx where
  world : IVec3 → Option BlockId
  blockCfg : BlockId → BlockConfig
  itemCfg : ItemId → ItemConfig
  usable : ItemId → Bool
  player : Option RightPlayer
  candidates : List RightModelCandidate
  interactive : Entity → Bool
  blockEntity : IVec3 → Option Entity
  block_hit : Option BlockHit

/-- Everything one right click produces: the model entity that consumed the
action (if any), the sink that received the player reference, whether the
equipped item's use-handler was notified, whether one unit was subtracted
from the equipped stack, and the issued block mutation. -/
structure RightResult where
  objectHit : Option Entity
  interaction : Option Entity
  itemUseNotified : Bool
  stackDecremented : Bool
  blockUpdate : Option (IVec3 × BlockId × Option BlockRotation)
deriving DecidableEq, Repr

/-- The all-noop right-click result. -/
def emptyResult : RightResult := ⟨none, none, false, false, none⟩

/-- The placement-orientation computation of source lines 595-633, branch
for branch: the outer guard (`rotatable`, or a side transform on a lateral
face), the ceiling/floor branch comparing the signed integer displacement
from block to player through `IVec2::max_element`, the lateral-sides
branch, and `None` everywhere else.  The source's `unreachable` arm is the
final `none`. -/
def placementOrientation (pc : PlacementConfig) (face : BlockFace)
    (playerPos blockPos : IVec3) : Option BlockRotation :=
  if pc.rotatable = true ∨
      (pc.side_transform = true ∧ face ≠ BlockFace.Top ∧ face ≠ BlockFace.Bottom) then
    if (face = BlockFace.Bottom ∧ pc.ceiling = true) ∨
        (face = BlockFace.Top ∧ pc.floor = true) then
      let dx := playerPos.x - blockPos.x
      let dz := playerPos.z - blockPos.z
      let mx := max dx dz
      if mx = dx then
        if 0 < dx then some .once else some .thrice
      else if mx = dz then
        if 0 < dz then none else some .twice
      else none
    else if (face ≠ BlockFace.Bottom ∨ face ≠ BlockFace.Top) ∧ pc.sides = true then
      some face.toRotation
    else none
  else none

/-- `replaced_block_position` of source lines 575-584: the hit position
when its block is replaceable; otherwise the position shifted along the
clicked face when that block is loaded and replaceable; otherwise no
placement. -/
def replacedPosition (ctx : RightCtx) (bh : BlockHit) : Option IVec3 :=
  if (ctx.blockCfg bh.block_id).replaceable = true then some bh.position
  else
    match ctx.world (bh.face.shiftPosition bh.position) with
    | some nb =>
      if (ctx.blockCfg nb).replaceable = true then some (bh.face.shiftPosition bh.position)
      else none
    | none => none

/-- The block-entity interaction lookup of source lines 547-555: the block
entity at the hit position, provided it exposes a `HandInteractions` sink. -/
def blockEntityInteraction (ctx : RightCtx) (pos : IVec3) : Option Entity :=
  match ctx.blockEntity pos with
  | some be => if ctx.interactive be then some be else none
  | none => none

/-- The placement tail of `handle_right_clicks` (source lines 557-639):
empty stack aborts; the use-handler is notified; a missing placement
position or placeable mapping aborts with the notification kept; otherwise
one unit is subtracted and the mutation with its orientation is issued. -/
def placementFlow (ctx : RightCtx) (player : RightPlayer) (stack : ItemStack)
    (bh : BlockHit) : RightResult :=
  match stack.item with
  | none => emptyResult
  | some item_id =>
    let notified := ctx.usable item_id
    match replacedPosition ctx bh with
    | none => { emptyResult with itemUseNotified := notified }
    | some rpos =>
      match (ctx.itemCfg item_id).block with
      | none => { emptyResult with itemUseNotified := notified }
      | some pb =>
        { emptyResult with
          itemUseNotified := notified,
          stackDecremented := true,
          blockUpdate := some (rpos, pb,
            placementOrientation (ctx.blockCfg pb).placement bh.face
              player.position bh.position) }

/-- One right click (source lines 468-640): the player query's `unwrap`,
then the model scan — any surviving model hit consumes the action (a sink
push when the entity has one) — then the block hit, the block-entity sink,
and the placement tail, with the inventory indexed only on that tail. -/
def handleRightClick (ctx : RightCtx) : Except String RightResult :=
  match ctx.player with
  | none => .error "missing player state"
  | some player =>
    match scanRight (blockHitDistance ctx.block_hit) ctx.candidates none with
    | some (e, _) =>
      if ctx.interactive e then
        .ok { emptyResult with objectHit := some e, interaction := some e }
      else
        .ok { emptyResult with objectHit := some e }
    | none =>
      match ctx.block_hit with
      | none => .ok emptyResult
      | some bh =>
        match blockEntityInteraction ctx bh.position with
        | some be => .ok { emptyResult with interaction := some be }
        | none =>
          match player.inventory.get? player.equipped with
          | none => .error "index out of bounds"
          | some stack => .ok (placementFlow ctx player stack bh)

theorem lookupA_insertA_self {α β : Type} [DecidableEq α] (l : List (α × β)) (k : α)
    (v : β) : lookupA (insertA l k v) k = some v := by
  induction l with
  | nil => simp [insertA, lookupA]
  | cons hd tl ih =>
    obtain ⟨k2, v2⟩ := hd
    by_cases hk : k2 = k
    · simp [insertA, hk, lookupA]
    · simp [insertA, hk, lookupA, ih]

theorem lookupA_insertA_ne {α β : Type} [DecidableEq α] (l : List (α × β)) (k p : α)
    (v : β) (h : k ≠ p) : lookupA (insertA l k v) p = lookupA l p := by
  induction l with
  | nil => simp [insertA, lookupA, h]
  | cons hd tl ih =>
    obtain ⟨k2, v2⟩ := hd
    by_cases hk : k2 = k
    · subst hk
      simp [insertA, lookupA, h]
    · simp [insertA, hk, lookupA, ih]

theorem lookupA_filter_none {α β : Type} [DecidableEq α] (l : List (α × β)) (p : α)
    (f : α × β → Bool) (h : lookupA l p = none) : lookupA (l.filter f) p = none := by
  induction l with
  | nil => simp [lookupA]
  | cons hd tl ih =>
    obtain ⟨k2, v2⟩ := hd
    by_cases hk : k2 = p
    · simp [lookupA, hk] at h
    · simp only [lookupA, hk, if_false] at h
      by_cases hf : f (k2, v2)
      · simp [List.filter, hf, lookupA, hk, ih h]
      · simp [List.filter, hf, ih h]

/-- Processing one event never touches the tracked entry of a different
position. -/
theorem processEvent_lookup_ne (cfg : GameCfg) (now : ℚ) (st : EngineState)
    (ev : BreakingEvent) (st' : EngineState) (p : IVec3)
    (hrun : processEvent cfg now st ev = .ok st') (hp : ev.block_position ≠ p) :
    lookupA st'.being_broken p = lookupA st.being_broken p := by
  unfold processEvent processEventCore activeBranch absentBranch at hrun
  repeat' split at hrun
  all_goals
    first
    | (cases hrun; rfl)
    | (cases hrun; simp [lookupA_insertA_ne _ _ _ _ hp])
    | exact Except.noConfusion hrun

/-- Processing one event only issues block mutations at the event's own
position. -/
theorem processEvent_updates (cfg : GameCfg) (now : ℚ) (st : EngineState)
    (ev : BreakingEvent) (st' : EngineState)
    (hrun : processEvent cfg now st ev = .ok st') :
    ∀ u ∈ st'.block_updates, u ∈ st.block_updates ∨ u.1 = ev.block_position := by
  unfold processEvent processEventCore activeBranch absentBranch at hrun
  repeat' split at hrun
  all_goals
    first
    | (cases hrun; intro u hu; simp at hu ⊢;
       rcases hu with hu | hu
       · exact Or.inl hu
       · simp [hu])
    | (cases hrun; intro u hu; exact Or.inl hu)
    | exact Except.noConfusion hrun

/-- An event whose block is unbreakable leaves the engine state unchanged
(when it does not panic on a missing player). -/
theorem processEvent_unbreakable (cfg : GameCfg) (now : ℚ) (st : EngineState)
    (ev : BreakingEvent) (st' : EngineState)
    (hrun : processEvent cfg now st ev = .ok st')
    (hh : (cfg.blockCfg ev.block_id).hardness = none) : st' = st := by
  unfold processEvent processEventCore at hrun
  repeat' split at hrun
  all_goals first
  | (cases hrun; rfl)
  | exact Except.noConfusion hrun
  | simp_all

/-- Folding the event loop preserves "position `p` untracked and never
mutated" whenever every event aimed at `p` has an unbreakable block. -/
theorem runEvents_unbreakable_inv (cfg : GameCfg) (now : ℚ) (p : IVec3) :
    ∀ (events : List BreakingEvent) (st st' : EngineState),
    runEvents cfg now events st = .ok st' →
    (∀ ev ∈ events, ev.block_position = p → (cfg.blockCfg ev.block_id).hardness = none) →
    lookupA st.being_broken p = none → (∀ u ∈ st.block_updates, u.1 ≠ p) →
    lookupA st'.being_broken p = none ∧ ∀ u ∈ st'.block_updates, u.1 ≠ p := by
  intro events
  induction events with
  | nil =>
    intro st st' hrun _ h1 h2
    cases hrun
    exact ⟨h1, h2⟩
  | cons ev rest ih =>
    intro st st' hrun hunb h1 h2
    unfold runEvents at hrun
    cases hmid : processEvent cfg now st ev with
    | error e => rw [hmid] at hrun; exact Except.noConfusion hrun
    | ok st1 =>
      rw [hmid] at hrun
      by_cases hpos : ev.block_position = p
      · have hst : st1 = st :=
          processEvent_unbreakable cfg now st ev st1 hmid
            (hunb ev (List.mem_cons_self ev rest) hpos)
        rw [hst] at hrun
        exact ih st st' hrun (fun e he hp2 => hunb e (List.mem_cons_of_mem ev he) hp2) h1 h2
      · have hl : lookupA st1.being_broken p = lookupA st.being_broken p :=
          processEvent_lookup_ne cfg now st ev st1 p hmid hpos

        have hu : ∀ u ∈ st1.block_updates, u.1 ≠ p := by
          intro u hu
          rcases processEvent_updates cfg now st ev st1 hmid u hu with h | h
          · exact h2 u h
          · rw [h]; exact hpos
        exact ih st1 st' hrun (fun e he hp2 => hunb e (List.mem_cons_of_mem ev he) hp2)
          (hl.trans h1) hu

/-- The cleanup pass issues no block mutation and no ground item. -/
theorem cleanup_commands (now : ℚ) (st : EngineState) :
    (cleanup now st).block_updates = st.block_updates ∧
    (cleanup now st).ground_items = st.ground_items := ⟨rfl, rfl⟩

/-- C6: for a position whose block configuration reports no hardness
(unbreakable), a whole tick of breaking events creates no tracked entry
for that position and issues no block mutation there.  Confirms the claim:
`break_blocks` skips such events before any state change (source lines
104-109). -/
theorem c6_unbreakable_untouched (cfg : GameCfg) (now : ℚ)
    (events : List BreakingEvent) (st0 st' : EngineState) (p : IVec3)
    (hunb : ∀ ev ∈ events, ev.block_position = p →
      (cfg.blockCfg ev.block_id).hardness = none)
    (hinit : lookupA st0.being_broken p = none)
    (hupd : ∀ u ∈ st0.block_updates, u.1 ≠ p)
    (hrun : break_blocks cfg now events st0 = .ok st') :
    lookupA st'.being_broken p = none ∧ ∀ u ∈ st'.block_updates, u.1 ≠ p := by
  unfold break_blocks at hrun
  cases hmid : runEvents cfg now events st0 with
  | error e => rw [hmid] at hrun; exact Except.noConfusion hrun
  | ok mid =>
    rw [hmid] at hrun
    cases hrun
    obtain ⟨hm1, hm2⟩ := runEvents_unbreakable_inv cfg now p events st0 mid hmid hunb hinit hupd
    constructor
    · exact lookupA_filter_none _ _ _ hm1
    · exact hm2

/-- The shared unbreakable-block configuration used by concrete runs. -/
def pcOff : PlacementConfig := ⟨false, false, false, false, false⟩

/-- A block configuration with the given hardness, no hitbox, not
replaceable, and the given drop table. -/
def mkBlock (h : Option ℚ) (drop : Option String → Option (ItemId × Nat)) : BlockConfig :=
  ⟨h, false, false, pcOff, drop⟩

/-- The empty drop table. -/
def noDrop : Option String → Option (ItemId × Nat) := fun _ => none

/-- A player with one empty inventory slot, slot 0 equipped. -/
def playerOk : PlayerState := ⟨[⟨none, 0⟩], 0⟩

/-- An item with no tool, no placeable block. -/
def itemPlain : ItemConfig := ⟨none, none, 0⟩

/-- Concrete configuration whose every block is unbreakable. -/
def cfgUnbreakable : GameCfg :=
  ⟨fun _ => mkBlock none noDrop, fun _ => itemPlain, 0, fun _ => some playerOk⟩

/-- C6 witness: a concrete tick with one event on an unbreakable block
leaves the position untracked. -/
theorem c6_witness :
    lookupA initState.being_broken (⟨0, 0, 0⟩ : IVec3) = (none : Option BreakingBlock) :=
  (c6_unbreakable_untouched cfgUnbreakable 0 [⟨1, ⟨0, 0, 0⟩, 5⟩] initState initState
    ⟨0, 0, 0⟩
    (by intro ev hev hp; rfl)
    rfl (by intro u hu; cases hu) rfl).1

/-- C7: after the cleanup pass of a successful `break_blocks` tick, every
surviving entry was hit within the last half second and has progress below
1; the cleanup itself issues no block mutation and no ground item, and it
despawns exactly the proxies of the removed entries.  Confirms the claim
(source lines 243-254). -/
theorem c7_cleanup_pass (cfg : GameCfg) (now : ℚ) (events : List BreakingEvent)
    (st0 st' : EngineState) (hrun : break_blocks cfg now events st0 = .ok st') :
    (∀ e ∈ st'.being_broken, now - e.2.prev_hit ≤ 1/2 ∧ e.2.progress < 1) ∧
    ∃ mid, runEvents cfg now events st0 = .ok mid ∧ st' = cleanup now mid ∧
      st'.block_updates = mid.block_updates ∧
      st'.ground_items = mid.ground_items ∧
      st'.despawned = mid.despawned ++
        (mid.being_broken.filter (fun e => shouldRemove now e.2)).map
          (fun e => e.2.model_entity) := by
  unfold break_blocks at hrun
  cases hmid : runEvents cfg now events st0 with
  | error e => rw [hmid] at hrun; exact Except.noConfusion hrun
  | ok mid =>
    rw [hmid] at hrun
    cases hrun
    constructor
    · intro e he
      have hmem := List.mem_filter.mp he
      have hrem : shouldRemove now e.2 = false := by
        have := hmem.2
        simpa using this
      unfold shouldRemove at hrem
      rw [Bool.or_eq_false_iff] at hrem
      obtain ⟨ha, hb⟩ := hrem
      rw [decide_eq_false_iff_not] at ha hb
      exact ⟨le_of_not_lt ha, lt_of_not_le hb⟩
    · exact ⟨mid, rfl, rfl, rfl, rfl, rfl⟩

/-- A state holding a single fresh entry that survives the cleanup pass. -/
def stSurvivor : EngineState :=
  { initState with
      being_broken := [(⟨0, 0, 0⟩, ⟨3, 1/2, 0⟩)],
      models := [(3, ⟨some "blocks/breaking_1.png", false⟩)],
      next_entity := 4 }

/-- C7 witness: the surviving entry of a concrete empty tick is recent and
incomplete. -/
theorem c7_witness :
    (0 : ℚ) - ((⟨3, 1/2, 0⟩ : BreakingBlock)).prev_hit ≤ 1/2 ∧
    ((⟨3, 1/2, 0⟩ : BreakingBlock)).progress < 1 := by
  have hrun : break_blocks cfgUnbreakable 0 [] stSurvivor = .ok stSurvivor := by
    norm_num [break_blocks, runEvents, Except.map, cleanup, shouldRemove, stSurvivor,
      initState]
  exact (c7_cleanup_pass cfgUnbreakable 0 [] stSurvivor stSurvivor hrun).1
    (⟨0, 0, 0⟩, ⟨3, 1/2, 0⟩)
    (by norm_num [break_blocks, runEvents, Except.map, cleanup, shouldRemove, stSurvivor,
      initState])


/-- Concrete configuration: every block takes one second to break, drops
nothing, every player is present with an empty hand. -/
def cfgHard1 : GameCfg :=
  ⟨fun _ => mkBlock (some 1) noDrop, fun _ => itemPlain, 0, fun _ => some playerOk⟩

/-- A state tracking one entry at the origin hit at instant 0, with its
hidden proxy model. -/
def stActive : EngineState :=
  { initState with
      being_broken := [(⟨0, 0, 0⟩, ⟨5, 0, 0⟩)],
      models := [(5, ⟨some "blocks/breaking_1.png", false⟩)],
      next_entity := 6 }

/-- C1 counterexample: a hit on an active entry 100 ms (more than 50 ms)
after the previous one only bumps the timestamp — progress stays 0 and is
not increased by `elapsed / hardness * efficiency = 1/10`, contradicting
the claim's reading that hits over 50 ms apart accumulate progress. -/
theorem c1_counterexample :
    processEvent cfgHard1 (1/10) stActive ⟨1, ⟨0, 0, 0⟩, 3⟩ =
      .ok { stActive with being_broken := [(⟨0, 0, 0⟩, ⟨5, 0, 1/10⟩)] } ∧
    (0 : ℚ) ≠ 0 + ((1 : ℚ)/10 - 0) / 1 * 1 := by
  constructor
  · norm_num [processEvent, processEventCore, activeBranch, lookupA, insertA, toolOf,
      efficiencyOf, cfgHard1, mkBlock, stActive, initState, playerOk, List.get?]
  · norm_num

/-- C1 (amended): for a hit on an `ACTIVE` entry with configured hardness,
if the elapsed time since the entry's previous hit EXCEEDS 50 ms only the
timestamp is updated and progress is unchanged; if it is AT MOST 50 ms
(and nonzero), progress increases by `elapsed_seconds / hardness *
tool_efficiency` and the timestamp is updated — the branches of the claim
are swapped relative to the code (source lines 111-131). -/
theorem c1_amended_interval_branches (cfg : GameCfg) (now : ℚ) (st : EngineState)
    (ev : BreakingEvent) (bb : BreakingBlock) (ps : PlayerState) (tool : Option Tool)
    (h : ℚ) (m : ModelState)
    (hbb : lookupA st.being_broken ev.block_position = some bb)
    (hdup : ¬ now = bb.prev_hit)
    (hp : cfg.players ev.player_entity = some ps)
    (ht : toolOf cfg ps = .ok tool)
    (hh : (cfg.blockCfg ev.block_id).hardness = some h)
    (hm : lookupA st.models bb.model_entity = some m) :
    (now - bb.prev_hit > 1/20 →
       processEvent cfg now st ev =
         .ok { st with being_broken :=
                 (insertA st.being_broken ev.block_position { bb with prev_hit := now }) }) ∧
    (now - bb.prev_hit ≤ 1/20 →
       ∃ st2, processEvent cfg now st ev = .ok st2 ∧
         lookupA st2.being_broken ev.block_position =
           some ⟨bb.model_entity,
             bb.progress + (now - bb.prev_hit) / h * efficiencyOf tool, now⟩) := by
  constructor
  · intro hgt
    simp only [processEvent, hbb, if_neg hdup, processEventCore, hp, ht, hh,
      activeBranch, if_pos hgt]
  · intro hle
    have hngt : ¬ now - bb.prev_hit > 1/20 := not_lt.mpr hle
    simp only [processEvent, hbb, if_neg hdup, processEventCore, hp, ht, hh,
      activeBranch, if_neg hngt, hm]
    by_cases hc : bb.progress + (now - bb.prev_hit) / h * efficiencyOf tool ≥ 1
    · rw [if_pos hc]
      cases hdrop : (cfg.blockCfg ev.block_id).drop (Option.map Tool.name tool) with
      | none => exact ⟨_, rfl, lookupA_insertA_self _ _ _⟩
      | some pr =>
        obtain ⟨iid, cnt⟩ := pr
        exact ⟨_, rfl, lookupA_insertA_self _ _ _⟩
    · rw [if_neg hc]
      exact ⟨_, rfl, lookupA_insertA_self _ _ _⟩

/-- C1 witness: the long-gap branch of the amended claim at a concrete
input. -/
theorem c1_witness :
    processEvent cfgHard1 (1/10) stActive ⟨1, ⟨0, 0, 0⟩, 3⟩ =
      .ok { stActive with being_broken :=
              (insertA stActive.being_broken ⟨0, 0, 0⟩
                { (⟨5, 0, 0⟩ : BreakingBlock) with prev_hit := 1/10 }) } :=
  (c1_amended_interval_branches cfgHard1 (1/10) stActive ⟨1, ⟨0, 0, 0⟩, 3⟩
    ⟨5, 0, 0⟩ playerOk none 1 ⟨some "blocks/breaking_1.png", false⟩
    rfl (by norm_num) rfl rfl rfl rfl).1 (by norm_num)

/-- Concrete configuration: instant-break blocks dropping two units of
item 7. -/
def cfgInstant : GameCfg :=
  ⟨fun _ => mkBlock (some 0) (fun _ => some (7, 2)), fun _ => itemPlain, 0,
   fun _ => some playerOk⟩

/-- Concrete configuration: instant-break blocks with no configured drop. -/
def cfgInstantNoDrop : GameCfg :=
  ⟨fun _ => mkBlock (some 0) noDrop, fun _ => itemPlain, 0, fun _ => some playerOk⟩

/-- C2 counterexample: for an instant-break block with NO configured drop,
the source's `continue` skips the guard insertion, so two events on the
same position in one tick issue the block mutation twice and leave the
position untracked — the claim's unconditional guard entry does not
exist. -/
theorem c2_counterexample :
    runEvents cfgInstantNoDrop 0 [⟨1, ⟨0, 0, 0⟩, 3⟩, ⟨1, ⟨0, 0, 0⟩, 3⟩] initState =
      .ok { initState with block_updates := [(⟨0, 0, 0⟩, 0), (⟨0, 0, 0⟩, 0)] } ∧
    lookupA ({ initState with
        block_updates := [(⟨0, 0, 0⟩, 0), (⟨0, 0, 0⟩, 0)] } : EngineState).being_broken
      ⟨0, 0, 0⟩ = none := by
  constructor
  · norm_num [runEvents, processEvent, processEventCore, absentBranch, lookupA, toolOf,
      cfgInstantNoDrop, mkBlock, noDrop, initState, playerOk, List.get?]
  · rfl

/-- C2 (amended): for an event on an untracked position whose block has
hardness 0, the block mutation to the empty block is always issued; when a
drop is configured, exactly one ground item of the drop's type and count is
spawned and a guard entry with progress 1.0 and this instant's timestamp is
inserted; when NO drop is configured, no ground item and — contrary to the
claim — no guard entry is inserted.  An entry whose timestamp equals the
current instant makes any further event on the position a no-op, which is
how the guard suppresses re-breaking within the tick. -/
theorem c2_amended_instant_break (cfg : GameCfg) (now : ℚ) (st : EngineState)
    (ev : BreakingEvent) (ps : PlayerState) (tool : Option Tool)
    (habs : lookupA st.being_broken ev.block_position = none)
    (hp : cfg.players ev.player_entity = some ps)
    (ht : toolOf cfg ps = .ok tool)
    (hh : (cfg.blockCfg ev.block_id).hardness = some 0) :
    ((cfg.blockCfg ev.block_id).drop (Option.map Tool.name tool) = none →
       processEvent cfg now st ev =
         .ok { st with block_updates :=
                 st.block_updates ++ [(ev.block_position, cfg.airId)] }) ∧
    (∀ iid cnt, (cfg.blockCfg ev.block_id).drop (Option.map Tool.name tool) = some (iid, cnt) →
       processEvent cfg now st ev =
         .ok { st with
                 block_updates := st.block_updates ++ [(ev.block_position, cfg.airId)],
                 ground_items := st.ground_items ++ [(iid, cnt, ev.block_position)],
                 being_broken := (insertA st.being_broken ev.block_position
                   ⟨st.next_entity, 1, now⟩),
                 next_entity := st.next_entity + 1 }) ∧
    (∀ (st2 : EngineState) (bb : BreakingBlock) (ev2 : BreakingEvent),
       lookupA st2.being_broken ev2.block_position = some bb → bb.prev_hit = now →
       processEvent cfg now st2 ev2 = .ok st2) := by
  refine ⟨?_, ?_, ?_⟩
  · intro hdrop
    simp only [processEvent, habs, processEventCore, hp, ht, hh, absentBranch,
      if_pos rfl, if_true, hdrop]
  · intro iid cnt hdrop
    simp only [processEvent, habs, processEventCore, hp, ht, hh, absentBranch,
      if_pos rfl, if_true, hdrop]
  · intro st2 bb ev2 hlk hprev
    simp only [processEvent, hlk, if_pos hprev.symm]

/-- C2 witness: with a configured drop, one event on an instant-break block
mutates the block once, spawns the drop, and inserts the guard. -/
theorem c2_witness :
    processEvent cfgInstant 0 initState ⟨1, ⟨0, 0, 0⟩, 3⟩ =
      .ok { initState with
              block_updates := [(⟨0, 0, 0⟩, 0)],
              ground_items := [(7, 2, ⟨0, 0, 0⟩)],
              being_broken := [(⟨0, 0, 0⟩, ⟨0, 1, 0⟩)],
              next_entity := 1 } := by
  have h := (c2_amended_instant_break cfgInstant 0 initState ⟨1, ⟨0, 0, 0⟩, 3⟩ playerOk none
    rfl rfl rfl rfl).2.1 7 2 rfl
  simpa [initState, insertA] using h

/-- Concrete configuration: blocks take 1/11 of a second to break, so a
single 50 ms hit jumps progress to 11/20. -/
def cfgH11 : GameCfg :=
  ⟨fun _ => mkBlock (some (1/11)) noDrop, fun _ => itemPlain, 0, fun _ => some playerOk⟩

/-- C3 counterexample: one update takes progress from 0 to 11/20, crossing
the 0.1 through 0.5 thresholds at once; only the 0.5 texture is applied,
and in particular the 0.1 stage (making the proxy visible) is skipped even
though it lies below the new progress — so not every intermediate stage at
or below the new progress is applied. -/
theorem c3_counterexample :
    processEvent cfgH11 (1/20) stActive ⟨1, ⟨0, 0, 0⟩, 3⟩ =
      .ok { stActive with
              being_broken := [(⟨0, 0, 0⟩, ⟨5, 11/20, 1/20⟩)],
              models := [(5, ⟨some "blocks/breaking_5.png", false⟩)] } ∧
    (1 : ℚ)/10 < 11/20 ∧ (3 : ℚ)/10 < 11/20 := by
  refine ⟨?_, by norm_num, by norm_num⟩
  norm_num [processEvent, processEventCore, activeBranch, lookupA, insertA, toolOf,
    efficiencyOf, stageApply, appliedStage, cfgH11, mkBlock, stActive, initState,
    playerOk, List.get?]

/-- C3 (amended): a single progress update applies at most one visual
stage: the HIGHEST decile threshold newly crossed (strictly bracketed by
old and new progress); every such stage satisfies the crossing condition,
and every other newly-crossed decile is at or below it — intermediate
stages are skipped, and no stage above the new progress is ever applied
(source lines 141-183 scan thresholds from high to low in an else-if
chain). -/
theorem c3_amended_highest_stage_only (prev progress : ℚ) (k : Nat)
    (hk : appliedStage prev progress = some k) :
    1 ≤ k ∧ k ≤ 9 ∧ prev < (k : ℚ)/10 ∧ progress > (k : ℚ)/10 ∧
    ∀ j : Nat, j ≤ 9 → prev < (j : ℚ)/10 → progress > (j : ℚ)/10 → j ≤ k := by
  unfold appliedStage at hk
  repeat' split at hk
  all_goals first
  | exact Option.noConfusion hk
  | (injection hk with hk
     subst hk
     rename_i hcond
     obtain ⟨h1, h2⟩ := hcond
     refine ⟨by norm_num, by norm_num, by push_cast; linarith, by push_cast; linarith, ?_⟩
     intro j hj hp1 hp2
     interval_cases j <;>
       first
       | omega
       | (push_cast at hp1 hp2; exact absurd (And.intro hp1 hp2) (by assumption)))

/-- C3 witness: progress 0 to 11/20 applies stage 5. -/
theorem c3_witness :
    1 ≤ 5 ∧ 5 ≤ 9 ∧ (0 : ℚ) < (5 : ℕ)/10 ∧ (11 : ℚ)/20 > (5 : ℕ)/10 ∧
    ∀ j : Nat, j ≤ 9 → (0 : ℚ) < (j : ℚ)/10 → (11 : ℚ)/20 > (j : ℚ)/10 → j ≤ 5 :=
  c3_amended_highest_stage_only 0 (11/20) 5 (by norm_num [appliedStage])

/-- Concrete configuration in which the player query fails: the entity
lacks `Inventory`/`EquippedItem`, as for a despawned player. -/
def cfgNoPlayers : GameCfg :=
  ⟨fun _ => mkBlock (some 1) noDrop, fun _ => itemPlain, 0, fun _ => none⟩

/-- C5 counterexample: an event referencing a player without the required
components makes the whole `break_blocks` run abort with a panic (the
source's `unwrap` on the player query, lines 93-95); the failure escapes
the event loop and the tick's remaining events — here a second event on a
different position — are never processed, contradicting the claim that the
event is dropped, logged, and the rest of the tick proceeds. -/
theorem c5_counterexample :
    break_blocks cfgNoPlayers 0 [⟨1, ⟨0, 0, 0⟩, 3⟩, ⟨2, ⟨9, 9, 9⟩, 3⟩] initState =
      .error "missing player state" := rfl

/-- C5 (amended): an event for an untracked position whose player lacks the
required state panics: `processEvent` fails, and a tick starting with such
an event aborts entirely — nothing is logged, the event is not merely
dropped, and later events of the tick are not processed. -/
theorem c5_amended_missing_player_panics (cfg : GameCfg) (now : ℚ) (st : EngineState)
    (ev : BreakingEvent) (rest : List BreakingEvent)
    (habs : lookupA st.being_broken ev.block_position = none)
    (hp : cfg.players ev.player_entity = none) :
    processEvent cfg now st ev = .error "missing player state" ∧
    break_blocks cfg now (ev :: rest) st = .error "missing player state" := by
  have h1 : processEvent cfg now st ev = .error "missing player state" := by
    simp only [processEvent, habs, processEventCore, hp]
  refine ⟨h1, ?_⟩
  unfold break_blocks runEvents
  rw [h1]
  rfl

/-- C5 witness: the amended claim at a concrete missing-player input. -/
theorem c5_witness :
    processEvent cfgNoPlayers 0 initState ⟨1, ⟨0, 0, 0⟩, 3⟩ =
      .error "missing player state" :=
  (c5_amended_missing_player_panics cfgNoPlayers 0 initState ⟨1, ⟨0, 0, 0⟩, 3⟩ []
    rfl rfl).1


/-- A boolean that is not true is false. -/
theorem bool_eq_false_of_ne_true {b : Bool} (h : ¬ b = true) : b = false := by
  cases b
  · rfl
  · exact absurd rfl h

/-- A boolean that is not false is true. -/
theorem bool_eq_true_of_ne_false {b : Bool} (h : ¬ b = false) : b = true := by
  cases b
  · exact absurd rfl h
  · rfl

/-- A right-click context with a single object candidate at exactly the
block hit's distance. -/
def ctxTie : RightCtx :=
  { world := fun _ => some 3
    blockCfg := fun _ => mkBlock (some 1) noDrop
    itemCfg := fun _ => itemPlain
    usable := fun _ => false
    player := some ⟨[⟨none, 0⟩], 0, ⟨0, 0, 0⟩⟩
    candidates := [⟨7, true, some 2⟩]
    interactive := fun _ => false
    blockEntity := fun _ => none
    block_hit := some ⟨⟨1, 2, 3⟩, 4, BlockFace.Top, 2⟩ }

/-- C4 counterexample: at exactly equal distances (both 2), the breaking
path selects the BLOCK (the claim says the object), and the interaction
path lets the OBJECT consume the action with no block mutation (the claim
says the block). -/
theorem c4_counterexample :
    resolveLeftTarget (some (⟨5, 5, 5⟩, 1, 2)) (some (⟨1, 2, 3⟩, 4, BlockFace.Top, 2)) =
      some (⟨1, 2, 3⟩, 4) ∧
    handleRightClick ctxTie = .ok { emptyResult with objectHit := some 7 } := by
  constructor
  · norm_num [resolveLeftTarget]
  · norm_num [handleRightClick, scanRight, blockHitDistance, ctxTie, emptyResult]

/-- C4 (amended): when both a block hit and an object hit exist the
strictly smaller distance wins on both paths, but at exactly EQUAL
distances the BLOCK is selected on the breaking path (source line 431
keeps the model only when strictly closer) and the OBJECT consumes the
action on the interaction path (source line 518 drops the model only when
the block is strictly closer) — the opposite of the claim's tie-breaking. -/
theorem c4_amended_tie_breaks :
    (∀ (mp : IVec3) (mb : BlockId) (md : ℚ) (bp : IVec3) (bb : BlockId)
       (f : BlockFace) (bd : ℚ), md < bd →
       resolveLeftTarget (some (mp, mb, md)) (some (bp, bb, f, bd)) = some (mp, mb)) ∧
    (∀ (mp : IVec3) (mb : BlockId) (md : ℚ) (bp : IVec3) (bb : BlockId)
       (f : BlockFace) (bd : ℚ), bd ≤ md →
       resolveLeftTarget (some (mp, mb, md)) (some (bp, bb, f, bd)) = some (bp, bb)) ∧
    (∀ (ctx : RightCtx) (player : RightPlayer) (c : RightModelCandidate) (d : ℚ),
       ctx.player = some player → ctx.candidates = [c] → c.queryOk = true →
       c.intersection = some d → d ≤ blockHitDistance ctx.block_hit →
       handleRightClick ctx =
         .ok { emptyResult with
                 objectHit := some c.entity,
                 interaction := if ctx.interactive c.entity then some c.entity else none }) ∧
    (∀ (c : RightModelCandidate) (d bhd : ℚ), c.intersection = some d → bhd < d →
       scanRight bhd [c] none = none) := by
  refine ⟨?_, ?_, ?_, ?_⟩
  · intro mp mb md bp bb f bd hlt
    simp only [resolveLeftTarget, if_pos hlt]
  · intro mp mb md bp bb f bd hle
    simp only [resolveLeftTarget, if_neg (not_lt.mpr hle)]
  · intro ctx player c d hpl hcand hq hint hle
    have hscan : scanRight (blockHitDistance ctx.block_hit) ctx.candidates none =
        some (c.entity, d) := by
      rw [hcand]
      simp only [scanRight, hq, hint, if_neg (not_lt.mpr hle), Bool.true_eq_false,
        if_false]
    by_cases hi : ctx.interactive c.entity
    · simp only [handleRightClick, hpl, hscan, if_pos hi, emptyResult]
    · simp only [handleRightClick, hpl, hscan, if_neg hi, emptyResult]
  · intro c d bhd hint hlt
    by_cases hq : c.queryOk = false
    · simp only [scanRight, if_pos hq]
    · simp only [scanRight, if_neg hq, hint, if_pos hlt, bool_eq_true_of_ne_false hq,
        Bool.true_eq_false, if_false]

/-- C4 witness: the four amended cases at concrete distances (1 vs 2 on
the breaking path, 2 vs 2 tie on both paths, and an object at distance 2
behind a block at distance 1 on the interaction path). -/
theorem c4_witness :
    resolveLeftTarget (some (⟨5, 5, 5⟩, 1, 1)) (some (⟨1, 2, 3⟩, 4, BlockFace.Top, 2)) =
      some (⟨5, 5, 5⟩, 1) ∧
    resolveLeftTarget (some (⟨5, 5, 5⟩, 1, 2)) (some (⟨1, 2, 3⟩, 4, BlockFace.Top, 2)) =
      some (⟨1, 2, 3⟩, 4) ∧
    handleRightClick ctxTie =
      .ok { emptyResult with
              objectHit := some 7,
              interaction := if ctxTie.interactive 7 then some 7 else none } ∧
    scanRight 1 [⟨7, true, some 2⟩] none = none :=
  ⟨c4_amended_tie_breaks.1 _ _ _ _ _ _ _ (by norm_num),
   c4_amended_tie_breaks.2.1 _ _ _ _ _ _ _ le_rfl,
   c4_amended_tie_breaks.2.2.1 ctxTie ⟨[⟨none, 0⟩], 0, ⟨0, 0, 0⟩⟩ ⟨7, true, some 2⟩ 2
     rfl rfl rfl rfl (by norm_num [ctxTie, blockHitDistance]),
   c4_amended_tie_breaks.2.2.2 ⟨7, true, some 2⟩ 2 1 rfl (by norm_num)⟩

/-- C8: on a placement attempt (no object consumed the click, a block was
hit, no block-entity sink took the click, the player and equipped stack
exist), the flow is `placementFlow`; the mutated position is the hit
position when replaceable, else the face-shifted position when that block
exists and is replaceable; and on an empty stack, a missing placement
position, or a missing placeable mapping no mutation is issued and the
stack is not decremented, while a full success issues exactly the mutation
with its orientation and decrements the stack.  Confirms the claim (source
lines 557-639). -/
theorem c8_placement_rules (ctx : RightCtx) (player : RightPlayer) (stack : ItemStack)
    (bh : BlockHit)
    (hpl : ctx.player = some player)
    (hscan : scanRight (blockHitDistance ctx.block_hit) ctx.candidates none = none)
    (hbh : ctx.block_hit = some bh)
    (hbe : blockEntityInteraction ctx bh.position = none)
    (hstack : player.inventory.get? player.equipped = some stack) :
    handleRightClick ctx = .ok (placementFlow ctx player stack bh) ∧
    (∀ r : IVec3, replacedPosition ctx bh = some r →
       ((ctx.blockCfg bh.block_id).replaceable = true ∧ r = bh.position) ∨
       ((ctx.blockCfg bh.block_id).replaceable = false ∧
        ∃ nb : BlockId, ctx.world (bh.face.shiftPosition bh.position) = some nb ∧
          (ctx.blockCfg nb).replaceable = true ∧ r = bh.face.shiftPosition bh.position)) ∧
    (stack.item = none → placementFlow ctx player stack bh = emptyResult) ∧
    (∀ iid : ItemId, stack.item = some iid → replacedPosition ctx bh = none →
       (placementFlow ctx player stack bh).blockUpdate = none ∧
       (placementFlow ctx player stack bh).stackDecremented = false) ∧
    (∀ iid : ItemId, stack.item = some iid → (ctx.itemCfg iid).block = none →
       (placementFlow ctx player stack bh).blockUpdate = none ∧
       (placementFlow ctx player stack bh).stackDecremented = false) ∧
    (∀ (iid : ItemId) (rpos : IVec3) (pb : BlockId),
       stack.item = some iid → replacedPosition ctx bh = some rpos →
       (ctx.itemCfg iid).block = some pb →
       (placementFlow ctx player stack bh).blockUpdate =
         some (rpos, pb, placementOrientation (ctx.blockCfg pb).placement bh.face
           player.position bh.position) ∧
       (placementFlow ctx player stack bh).stackDecremented = true) := by
  refine ⟨?_, ?_, ?_, ?_, ?_, ?_⟩
  · rw [hbh] at hscan
    simp only [handleRightClick, hpl, hbh, hscan, hbe, hstack]
  · intro r hr
    unfold replacedPosition at hr
    by_cases hrep : (ctx.blockCfg bh.block_id).replaceable = true
    · rw [if_pos hrep] at hr
      exact Or.inl ⟨hrep, (Option.some.inj hr).symm⟩
    · rw [if_neg hrep] at hr
      cases hw : ctx.world (bh.face.shiftPosition bh.position) with
      | none =>
        simp only [hw] at hr
        exact Option.noConfusion hr
      | some nb =>
        simp only [hw] at hr
        by_cases hrep2 : (ctx.blockCfg nb).replaceable = true
        · rw [if_pos hrep2] at hr
          exact Or.inr ⟨bool_eq_false_of_ne_true hrep,
            nb, rfl, hrep2, (Option.some.inj hr).symm⟩
        · rw [if_neg hrep2] at hr
          exact Option.noConfusion hr
  · intro h0
    simp only [placementFlow, h0]
  · intro iid hiid hnone
    simp only [placementFlow, hiid, hnone]
    exact ⟨by trivial, by trivial⟩
  · intro iid hiid hblock
    simp only [placementFlow, hiid]
    cases hrp : replacedPosition ctx bh with
    | none => exact ⟨by trivial, by trivial⟩
    | some rpos =>
      simp only [hblock]
      exact ⟨by trivial, by trivial⟩
  · intro iid rpos pb hiid hrp hblock
    simp only [placementFlow, hiid, hrp, hblock]
    exact ⟨by trivial, by trivial⟩

/-- A block hit on a non-replaceable block at the origin, top face. -/
def bhPlace : BlockHit := ⟨⟨0, 0, 0⟩, 4, BlockFace.Top, 2⟩

/-- A right-click context leading to a successful placement one block above
the hit: block 4 is hit but not replaceable, its upward neighbour (block 9)
is replaceable, and the equipped item 11 places block 12. -/
def ctxPlace : RightCtx :=
  { world := fun _ => some 9
    blockCfg := fun b => if b = 9 then { mkBlock (some 1) noDrop with replaceable := true }
      else mkBlock (some 1) noDrop
    itemCfg := fun i => if i = 11 then ⟨none, some 12, 0⟩ else itemPlain
    usable := fun _ => false
    player := some ⟨[⟨some 11, 1⟩], 0, ⟨0, 0, 0⟩⟩
    candidates := []
    interactive := fun _ => false
    blockEntity := fun _ => none
    block_hit := some bhPlace }

/-- C8 witness: the successful-placement branch at a concrete context. -/
theorem c8_witness :
    (placementFlow ctxPlace ⟨[⟨some 11, 1⟩], 0, ⟨0, 0, 0⟩⟩ ⟨some 11, 1⟩ bhPlace).blockUpdate =
      some (BlockFace.Top.shiftPosition ⟨0, 0, 0⟩, 12,
        placementOrientation (ctxPlace.blockCfg 12).placement bhPlace.face
          (⟨0, 0, 0⟩ : IVec3) bhPlace.position) ∧
    (placementFlow ctxPlace ⟨[⟨some 11, 1⟩], 0, ⟨0, 0, 0⟩⟩ ⟨some 11, 1⟩
      bhPlace).stackDecremented = true :=
  (c8_placement_rules ctxPlace ⟨[⟨some 11, 1⟩], 0, ⟨0, 0, 0⟩⟩ ⟨some 11, 1⟩ bhPlace
    rfl rfl rfl rfl rfl).2.2.2.2.2 11 (BlockFace.Top.shiftPosition ⟨0, 0, 0⟩) 12
    rfl rfl rfl

/-- Modelled from the amended claim: the placement axis is chosen by the
larger SIGNED displacement (x wins ties); positive x yields one quarter
turn, non-positive x three; on the z axis a non-positive displacement
yields two quarter turns and a positive one yields NO orientation. -/
def orientationAmended (dx dz : Int) : Option BlockRotation :=
  if dx < dz then (if 0 < dz then none else some .twice)
  else (if 0 < dx then some .once else some .thrice)

/-- A rotatable block placeable on ceilings and floors. -/
def pcRot : PlacementConfig := ⟨true, false, true, true, false⟩

/-- C9 counterexample: clicking the top face of a rotatable,
floor-placeable block with the player displaced (0, +1) in (x, z) yields NO
orientation at all — not one of four rotations; and with displacement
(1, -5) the x axis is chosen although the z displacement has the larger
magnitude. -/
theorem c9_counterexample :
    placementOrientation pcRot BlockFace.Top ⟨0, 0, 1⟩ ⟨0, 0, 0⟩ = none ∧
    placementOrientation pcRot BlockFace.Top ⟨1, 0, -5⟩ ⟨0, 0, 0⟩ =
      some BlockRotation.once ∧
    (1 : Int) < |(-5 : Int)| := by
  refine ⟨?_, ?_, by norm_num⟩
  · norm_num [placementOrientation, pcRot]
  · norm_num [placementOrientation, pcRot]

/-- C9 (amended): on the ceiling/floor branch (rotatable block, top face
with floor placement or bottom face with ceiling placement), the
orientation is `orientationAmended` of the SIGNED displacements: the axis
with the larger signed displacement is chosen (x on ties), the rotation
faces the player by sign, and a positive z displacement produces no
orientation state instead of a rotation. -/
theorem c9_amended_signed_axis (pc : PlacementConfig) (face : BlockFace)
    (playerPos blockPos : IVec3)
    (hrot : pc.rotatable = true)
    (hface : (face = BlockFace.Bottom ∧ pc.ceiling = true) ∨
             (face = BlockFace.Top ∧ pc.floor = true)) :
    placementOrientation pc face playerPos blockPos =
      orientationAmended (playerPos.x - blockPos.x) (playerPos.z - blockPos.z) := by
  simp only [placementOrientation, orientationAmended]
  rw [if_pos (Or.inl hrot), if_pos hface]
  rcases le_or_lt (playerPos.z - blockPos.z) (playerPos.x - blockPos.x) with hcmp | hcmp
  · rw [if_pos (max_eq_left hcmp), if_neg (not_lt.mpr hcmp)]
  · have hmx : max (playerPos.x - blockPos.x) (playerPos.z - blockPos.z) =
        playerPos.z - blockPos.z := max_eq_right hcmp.le
    have hne : ¬ (max (playerPos.x - blockPos.x) (playerPos.z - blockPos.z) =
        playerPos.x - blockPos.x) := by rw [hmx]; omega
    rw [if_neg hne, if_pos hmx, if_pos hcmp]

/-- C9 witness: the amended characterisation at a concrete input (player
three blocks east of the placement). -/
theorem c9_witness :
    placementOrientation pcRot BlockFace.Top ⟨3, 0, 0⟩ ⟨0, 0, 0⟩ =
      orientationAmended ((⟨3, 0, 0⟩ : IVec3).x - (⟨0, 0, 0⟩ : IVec3).x)
        ((⟨3, 0, 0⟩ : IVec3).z - (⟨0, 0, 0⟩ : IVec3).z) :=
  c9_amended_signed_axis pcRot BlockFace.Top ⟨3, 0, 0⟩ ⟨0, 0, 0⟩ rfl (Or.inr ⟨rfl, rfl⟩)

/-- Accumulator-generalised form of the left-click model-scan soundness:
any reported hit either came in through the accumulator or originates from
a candidate that passes every guard of the scan. -/
theorem scanModels_acc (world : IVec3 → Option BlockId) (bcfg : BlockId → BlockConfig) :
    ∀ (cands : List LeftModelCandidate) (acc : Option (IVec3 × BlockId × ℚ))
      (hit : IVec3 × BlockId × ℚ),
    scanModels world bcfg cands acc = .ok (some hit) →
    acc = some hit ∨ ∃ c ∈ cands, c.queryOk = true ∧ c.blockTag = some hit.1 ∧
      world hit.1 = some hit.2.1 ∧ (bcfg hit.2.1).hitbox = true ∧
      c.intersection = some hit.2.2 := by
  intro cands
  induction cands with
  | nil =>
    intro acc hit h
    unfold scanModels at h
    exact Or.inl (Except.ok.inj h)
  | cons c rest ih =>
    intro acc hit h
    unfold scanModels at h
    by_cases hq : c.queryOk = false
    · rw [if_pos hq] at h
      rcases ih acc hit h with h1 | ⟨c2, hc2, hfacts⟩
      · exact Or.inl h1
      · exact Or.inr ⟨c2, List.mem_cons_of_mem c hc2, hfacts⟩
    · rw [if_neg hq] at h
      have hq2 : c.queryOk = true := bool_eq_true_of_ne_false hq
      cases htag : c.blockTag with
      | none =>
        simp only [htag] at h
        rcases ih acc hit h with h1 | ⟨c2, hc2, hfacts⟩
        · exact Or.inl h1
        · exact Or.inr ⟨c2, List.mem_cons_of_mem c hc2, hfacts⟩
      | some pos =>
        simp only [htag] at h
        cases hw : world pos with
        | none =>
          simp only [hw] at h
          exact Except.noConfusion h
        | some bid =>
          simp only [hw] at h
          by_cases hbx : (bcfg bid).hitbox = false
          · rw [if_pos hbx] at h
            rcases ih acc hit h with h1 | ⟨c2, hc2, hfacts⟩
            · exact Or.inl h1
            · exact Or.inr ⟨c2, List.mem_cons_of_mem c hc2, hfacts⟩
          · rw [if_neg hbx] at h
            have hbx2 : (bcfg bid).hitbox = true := bool_eq_true_of_ne_false hbx
            cases hint : c.intersection with
            | none =>
              simp only [hint] at h
              rcases ih acc hit h with h1 | ⟨c2, hc2, hfacts⟩
              · exact Or.inl h1
              · exact Or.inr ⟨c2, List.mem_cons_of_mem c hc2, hfacts⟩
            | some d =>
              simp only [hint] at h
              cases acc with
              | none =>
                rcases ih (some (pos, bid, d)) hit (by simpa using h) with
                  h1 | ⟨c2, hc2, hfacts⟩
                · have h2 := (Option.some.inj h1)
                  subst h2
                  exact Or.inr ⟨c, List.mem_cons_self c rest, hq2, htag, hw, hbx2, hint⟩
                · exact Or.inr ⟨c2, List.mem_cons_of_mem c hc2, hfacts⟩
              | some t =>
                obtain ⟨tp, tb, td⟩ := t
                simp only [] at h
                by_cases hlt : d < td
                · rw [if_pos hlt] at h
                  rcases ih (some (pos, bid, d)) hit h with h1 | ⟨c2, hc2, hfacts⟩
                  · have h2 := (Option.some.inj h1)
                    subst h2
                    exact Or.inr ⟨c, List.mem_cons_self c rest, hq2, htag, hw, hbx2, hint⟩
                  · exact Or.inr ⟨c2, List.mem_cons_of_mem c hc2, hfacts⟩
                · rw [if_neg hlt] at h
                  rcases ih (some (tp, tb, td)) hit h with h1 | ⟨c2, hc2, hfacts⟩
                  · exact Or.inl h1
                  · exact Or.inr ⟨c2, List.mem_cons_of_mem c hc2, hfacts⟩

/-- C10: every object hit reported by the left-click model scan originates
from a candidate that carries a block-position tag, whose tagged block as
currently stored in the world has a configured hitbox; the reported hit is
the tag's position together with the world's block id at that position —
never an object reference.  Confirms the claim (source lines 385-419). -/
theorem c10_object_hits_are_tagged_blocks (world : IVec3 → Option BlockId)
    (bcfg : BlockId → BlockConfig) (cands : List LeftModelCandidate)
    (p : IVec3) (b : BlockId) (d : ℚ)
    (h : scanModels world bcfg cands none = .ok (some (p, b, d))) :
    ∃ c ∈ cands, c.queryOk = true ∧ c.blockTag = some p ∧ world p = some b ∧
      (bcfg b).hitbox = true ∧ c.intersection = some d := by
  rcases scanModels_acc world bcfg cands none (p, b, d) h with h1 | h2
  · exact Option.noConfusion h1
  · exact h2

/-- A candidate model tagged with block position (1, 2, 3), intersected at
distance 2. -/
def candW : LeftModelCandidate := ⟨7, true, some ⟨1, 2, 3⟩, some 2⟩

/-- A world holding block 4 everywhere. -/
def worldW : IVec3 → Option BlockId := fun _ => some 4

/-- Block configurations that all expose a hitbox. -/
def bcfgW : BlockId → BlockConfig := fun _ => { mkBlock (some 1) noDrop with hitbox := true }

/-- C10 witness: the scan over a single tagged candidate reports the
candidate's properties. -/
theorem c10_witness :
    candW.queryOk = true ∧ candW.blockTag = some ⟨1, 2, 3⟩ ∧
    worldW ⟨1, 2, 3⟩ = some 4 ∧ (bcfgW 4).hitbox = true ∧
    candW.intersection = some 2 := by
  obtain ⟨c, hc, h1, h2, h3, h4, h5⟩ :=
    c10_object_hits_are_tagged_blocks worldW bcfgW [candW] ⟨1, 2, 3⟩ 4 2 rfl
  have hceq : c = candW := List.mem_singleton.mp hc
  subst hceq
  exact ⟨h1, h2, h3, h4, h5⟩
